import Mathlib

/-!
Verification model of `ocr_gemini.py` (Image-to-Graph-Converter).

The script is a linear batch pipeline: resolve an API key, list a directory,
filter to `.jpg`/`.jpeg` files, call a remote vision model once per file, and
serialize the accumulated filename-to-text mapping as JSON.

Shallow embedding conventions:
* the process environment (the value of `GEMINI_API_KEY` after `load_dotenv`)
  is an `Option String`;
* the remote model `model.generate_content([prompt, image])` is an oracle
  `gen : String → String → Except String String` from prompt and decoded image
  content to either the response text or a raised exception;
* the file system is `fs : String → Option String`: `fs name = some content`
  means `Image.open` succeeds on that directory entry and yields `content`,
  `none` means `Image.open` raises (file missing, unreadable, or a directory);
* `sys.exit(1)` is modelled by an aborted run: `perform_ocr` returns a trace
  whose `result` is `none`, and `main` stops, reports exit code 1 and writes
  no output file;
* `json.dump(all_results, f, ensure_ascii=False, indent=2)` is modelled by
  `jsonDump`, and reading the file back with a JSON parser by `jsonLoad`.
-/

namespace OcrGemini

/-! ### JSON serialization, modelling `json.dump(obj, ensure_ascii=False, indent=2)` -/

/-- Lower-case hex digit, as produced by Python's `\uXXXX` escapes. -/
def hexDigitChar (n : Nat) : Char :=
  if n < 10 then Char.ofNat (48 + n) else Char.ofNat (87 + n)

/-- Escaping of one character inside a JSON string literal, following Python's
`json` encoder with `ensure_ascii=False`: only `"` and `\` and control
characters below `0x20` are escaped; everything else (including non-ASCII such
as `é`) is emitted literally. -/
def escapeChar (c : Char) : List Char :=
  if c = '"' then ['\\', '"']
  else if c = '\\' then ['\\', '\\']
  else if c = '\x08' then ['\\', 'b']
  else if c = '\x0c' then ['\\', 'f']
  else if c = '\n' then ['\\', 'n']
  else if c = '\r' then ['\\', 'r']
  else if c = '\t' then ['\\', 't']
  else if c.toNat < 32 then
    ['\\', 'u', '0', '0', hexDigitChar (c.toNat / 16), hexDigitChar (c.toNat % 16)]
  else [c]

/-- A JSON string literal for `s`, with Python's `ensure_ascii=False` escaping. -/
def encodeString (s : String) : String :=
  "\"" ++ String.mk ((s.data.map escapeChar).flatten) ++ "\""

/-- One member line of the indented JSON object: two-space indent,
encoded key, `": "`, encoded value (Python's `indent=2` layout). -/
def entryLine (kv : String × String) : String :=
  "  " ++ encodeString kv.1 ++ ": " ++ encodeString kv.2

/-- The exact text `json.dump(m, f, ensure_ascii=False, indent=2)` writes for a
dict with entries `m` in insertion order: `\x7b\x7d` for the empty dict, else an
opening brace, one indented member per line separated by `",\n"`, and a closing
brace on its own line. -/
def jsonDump (m : List (String × String)) : String :=
  match m with
  | [] => "\x7b\x7d"
  | _ => "\x7b\n" ++ String.intercalate ",\n" (m.map entryLine) ++ "\n\x7d"

/-! ### JSON reading back (a JSON parser for objects of strings) -/

/-- Numeric value of a hex digit, upper or lower case. -/
def hexVal (c : Char) : Option Nat :=
  if 48 ≤ c.toNat ∧ c.toNat ≤ 57 then some (c.toNat - 48)
  else if 97 ≤ c.toNat ∧ c.toNat ≤ 102 then some (c.toNat - 87)
  else if 65 ≤ c.toNat ∧ c.toNat ≤ 70 then some (c.toNat - 55)
  else none

/-- Resolution of a single-character JSON escape `\c`. -/
def unescapeChar (c : Char) : Option Char :=
  if c = '"' then some '"'
  else if c = '\\' then some '\\'
  else if c = '/' then some '/'
  else if c = 'b' then some '\x08'
  else if c = 'f' then some '\x0c'
  else if c = 'n' then some '\n'
  else if c = 'r' then some '\r'
  else if c = 't' then some '\t'
  else none

/-- Scanner state inside a JSON string literal: plain characters, just after a
backslash, or inside a `\uXXXX` escape with `count` digits read so far whose
accumulated value is `val`. -/
inductive StrMode where
  | normal : StrMode
  | escaped : StrMode
  | unicode : Nat → Nat → StrMode
deriving Repr, DecidableEq

/-- Scan a JSON string body (the part after the opening quote) up to its
closing quote, resolving escapes; returns the decoded characters and the
remaining input. `acc` holds the decoded characters in reverse. -/
def parseStringBody : List Char → StrMode → List Char → Option (List Char × List Char)
  | [], _, _ => none
  | c :: rest, StrMode.normal, acc =>
    if c = '"' then some (acc.reverse, rest)
    else if c = '\\' then parseStringBody rest StrMode.escaped acc
    else parseStringBody rest StrMode.normal (c :: acc)
  | c :: rest, StrMode.escaped, acc =>
    if c = 'u' then parseStringBody rest (StrMode.unicode 0 0) acc
    else
      match unescapeChar c with
      | some d => parseStringBody rest StrMode.normal (d :: acc)
      | none => none
  | c :: rest, StrMode.unicode k v, acc =>
    match hexVal c with
    | none => none
    | some d =>
      if k = 3 then parseStringBody rest StrMode.normal (Char.ofNat (16 * v + d) :: acc)
      else parseStringBody rest (StrMode.unicode (k + 1) (16 * v + d)) acc

/-- Skip JSON whitespace. -/
def skipWs : List Char → List Char
  | [] => []
  | c :: rest =>
    if c = ' ' ∨ c = '\n' ∨ c = '\t' ∨ c = '\r' then skipWs rest else c :: rest

/-- Parse one `"key": "value"` member (leading whitespace allowed); returns the
pair and the input remaining immediately after the value's closing quote. -/
def parsePair (l : List Char) : Option ((String × String) × List Char) :=
  match skipWs l with
  | '"' :: r =>
    match parseStringBody r StrMode.normal [] with
    | none => none
    | some (k, r1) =>
      match skipWs r1 with
      | ':' :: r2 =>
        match skipWs r2 with
        | '"' :: r3 =>
          match parseStringBody r3 StrMode.normal [] with
          | none => none
          | some (v, r4) => some ((String.mk k, String.mk v), r4)
        | _ => none
      | _ => none
  | _ => none

/-- Parse a non-empty comma-separated member list followed by the closing
brace. `fuel` bounds the number of members. -/
def parseMembers : Nat → List Char → Option (List (String × String) × List Char)
  | 0, _ => none
  | fuel + 1, l =>
    match parsePair l with
    | none => none
    | some (kv, r) =>
      match skipWs r with
      | ',' :: r2 =>
        match parseMembers fuel r2 with
        | none => none
        | some (rest, r3) => some (kv :: rest, r3)
      | '\x7d' :: r2 => some ([kv], r2)
      | _ => none

/-- Read a JSON object of strings back from text (modelling `json.load` on the
output file, whose content is always a flat string-to-string object). -/
def jsonLoad (s : String) : Option (List (String × String)) :=
  match skipWs s.data with
  | '\x7b' :: r =>
    match skipWs r with
    | '\x7d' :: r2 => if skipWs r2 = [] then some [] else none
    | l2 =>
      match parseMembers (s.data.length + 1) l2 with
      | none => none
      | some (m, r3) => if skipWs r3 = [] then some m else none
  | _ => none

/-! ### The program: `setup_gemini`, `perform_ocr`, `main` -/

/-- The `ValueError` message raised by `setup_gemini` when no key is found. -/
def configErrorMsg : String :=
  "Gemini API key not found. Please set GEMINI_API_KEY environment variable or pass it as an argument."

/-- Model of `setup_gemini(api_key=None)`: after `load_dotenv()`, if `api_key is None`
it is replaced by `os.getenv('GEMINI_API_KEY')` (modelled by `envKey`, the
value of that variable after the environment file was loaded); then
`if not api_key` (that is, `None` or the empty string) a `ValueError` is
raised; otherwise the client is configured with that key, which the model
returns. -/
def setup_gemini (envKey : Option String) (api_key : Option String) : Except String String :=
  let key := match api_key with
    | none => envKey
    | some k => some k
  match key with
  | none => Except.error configErrorMsg
  | some k => if k = "" then Except.error configErrorMsg else Except.ok k

/-- The default prompt of `perform_ocr`. -/
def defaultPrompt : String :=
  "Extract all text and data from this image. Return the text in a structured format."

/-- Observable trace of one `perform_ocr` call: whether `Image.open`
succeeded, whether `setup_gemini` was invoked, whether the remote call
`model.generate_content` was invoked, and the returned text (`none` means an
exception was caught and the process exited with code 1). -/
structure OcrTrace where
  openedImage : Bool
  calledSetup : Bool
  calledGen : Bool
  result : Option String
deriving Repr, DecidableEq

/-- Model of `perform_ocr(image_path, api_key, prompt)`: open the image, then configure
the model via `setup_gemini(api_key)`, then call `generate_content` and return
`response.text`; any exception in this sequence is caught and the process
exits with code 1 (`result = none`). -/
def perform_ocr (envKey : Option String) (gen : String → String → Except String String)
    (image : Option String) (api_key : Option String) (prompt : String) : OcrTrace :=
  match image with
  | none => ⟨false, false, false, none⟩
  | some img =>
    match setup_gemini envKey api_key with
    | Except.error _ => ⟨true, true, false, none⟩
    | Except.ok _ =>
      match gen prompt img with
      | Except.error _ => ⟨true, true, true, none⟩
      | Except.ok text => ⟨true, true, true, some text⟩

/-- Accumulated state of the batch loop in `main`: the in-memory
`all_results` dict (insertion order), call counters, the images opened so far,
and whether a `sys.exit(1)` occurred. -/
structure BatchState where
  results : List (String × String)
  setupCalls : Nat
  genCalls : Nat
  opened : List String
  failed : Bool
deriving Repr, DecidableEq

/-- The `for filename in ...` loop body of `main`, iterated over the eligible
filenames: each file goes through `perform_ocr`; on success its text is
recorded under its filename, on failure the loop aborts (process exit). -/
def processFiles (envKey : Option String) (gen : String → String → Except String String)
    (fs : String → Option String) (api_key : Option String) :
    List String → BatchState → BatchState
  | [], st => st
  | n :: rest, st =>
    let t := perform_ocr envKey gen (fs n) api_key defaultPrompt
    let st' : BatchState :=
      ⟨st.results, st.setupCalls + (if t.calledSetup then 1 else 0),
        st.genCalls + (if t.calledGen then 1 else 0),
        st.opened ++ (if t.openedImage then [n] else []), st.failed⟩
    match t.result with
    | none => ⟨st'.results, st'.setupCalls, st'.genCalls, st'.opened, true⟩
    | some text =>
      processFiles envKey gen fs api_key rest
        ⟨st'.results ++ [(n, text)], st'.setupCalls, st'.genCalls, st'.opened, st'.failed⟩

/-- Outcome of one whole run of `main`: process exit code, the content written
to the output file (`none` when the run aborted before writing), the final
in-memory result dict, call counters, and the images opened. -/
structure RunResult where
  exitCode : Nat
  written : Option String
  results : List (String × String)
  setupCalls : Nat
  genCalls : Nat
  opened : List String
deriving Repr, DecidableEq

/-- The filter `filename.lower().endswith((".jpg", ".jpeg"))`, on code points: the name
is lower-cased character-wise and checked for either suffix (the suffixes are
ASCII, so ASCII lower-casing decides the match). -/
def isEligible (filename : String) : Bool :=
  let low := filename.data.map Char.toLower
  List.isSuffixOf ".jpg".data low || List.isSuffixOf ".jpeg".data low

/-- Lexicographic comparison of code-point sequences: exactly how Python
compares two `str` values. -/
def lexLe : List Char → List Char → Bool
  | [], _ => true
  | _ :: _, [] => false
  | a :: as, b :: bs =>
    if a.toNat < b.toNat then true
    else if b.toNat < a.toNat then false
    else lexLe as bs

/-- Python's `≤` on filenames, as a relation on `String`. -/
def pyLe (a b : String) : Prop := lexLe a.data b.data = true

instance : DecidableRel pyLe := fun a b => by
  unfold pyLe
  infer_instance

/-- Model of `sorted(os.listdir(images_directory))`: Python sorts filenames
lexicographically by code point (`pyLe`); insertion sort realizes Python's
stable sort. -/
def sortedListing (listing : List String) : List String :=
  List.insertionSort pyLe listing

/-- The filenames the loop actually processes: the sorted listing restricted
to names passing the extension filter. -/
def eligibleFiles (listing : List String) : List String :=
  (sortedListing listing).filter isEligible

/-- The state of `all_results` and the counters after the whole loop of
`main` has run (starting from the empty dict and zeroed counters). -/
def runState (envKey : Option String) (gen : String → String → Except String String)
    (fs : String → Option String) (api_key : Option String)
    (listing : List String) : BatchState :=
  processFiles envKey gen fs api_key (eligibleFiles listing) ⟨[], 0, 0, [], false⟩

/-- Model of `main()`: check the directory exists (else exit 1); run the loop over the
sorted, filtered listing; if the loop survived, write the JSON dump of
`all_results` to the output file and exit 0. -/
def main (envKey : Option String) (gen : String → String → Except String String)
    (fs : String → Option String) (api_key : Option String)
    (dirExists : Bool) (listing : List String) : RunResult :=
  if dirExists then
    let st := runState envKey gen fs api_key listing
    if st.failed then ⟨1, none, st.results, st.setupCalls, st.genCalls, st.opened⟩
    else ⟨0, some (jsonDump st.results), st.results, st.setupCalls, st.genCalls, st.opened⟩
  else ⟨1, none, [], 0, 0, []⟩

/-! ### Basic facts about `perform_ocr` and the batch loop -/

/-- A successful `perform_ocr` went through all three stages: it opened the
image, resolved credentials and called the remote model. -/
theorem perform_ocr_result_some {envKey gen image api_key prompt x}
    (h : (perform_ocr envKey gen image api_key prompt).result = some x) :
    perform_ocr envKey gen image api_key prompt = ⟨true, true, true, some x⟩ := by
  cases himg : image with
  | none => rw [himg] at h; simp [perform_ocr] at h
  | some img =>
    rw [himg] at h
    cases hs : setup_gemini envKey api_key with
    | error e => simp [perform_ocr, hs] at h
    | ok k =>
      cases hg : gen prompt img with
      | error e => simp [perform_ocr, hs, hg] at h
      | ok t =>
        simp [perform_ocr, hs, hg] at h ⊢
        exact h

/-- When every file in the list is processed successfully (with text given by
`t`), the loop records every filename in order, opens every file, and resolves
credentials and calls the remote model once per file. -/
theorem processFiles_all_ok (envKey : Option String)
    (gen : String → String → Except String String) (fs : String → Option String)
    (api_key : Option String) (t : String → String) (l : List String) :
    ∀ st : BatchState,
      (∀ n ∈ l, (perform_ocr envKey gen (fs n) api_key defaultPrompt).result = some (t n)) →
      processFiles envKey gen fs api_key l st =
        ⟨st.results ++ l.map (fun n => (n, t n)), st.setupCalls + l.length,
          st.genCalls + l.length, st.opened ++ l, st.failed⟩ := by
  induction l with
  | nil => intro st _; simp [processFiles]
  | cons n rest ih =>
    intro st h
    have htr := perform_ocr_result_some (h n (by simp))
    rw [processFiles, htr]
    simp only
    rw [ih _ (fun m hm => h m (by simp [hm]))]
    simp [List.append_assoc]
    omega

/-- If some file in the list fails to process, the whole loop aborts. -/
theorem processFiles_failed (envKey : Option String)
    (gen : String → String → Except String String) (fs : String → Option String)
    (api_key : Option String) (l : List String) :
    ∀ st : BatchState, ∀ n ∈ l,
      (perform_ocr envKey gen (fs n) api_key defaultPrompt).result = none →
      (processFiles envKey gen fs api_key l st).failed = true := by
  induction l with
  | nil => intro st n hn; cases hn
  | cons m rest ih =>
    intro st n hn hfail
    rcases List.mem_cons.mp hn with heq | hmem
    · subst heq
      rw [processFiles, hfail]
    · cases hres : (perform_ocr envKey gen (fs m) api_key defaultPrompt).result with
      | none => rw [processFiles, hres]
      | some tx =>
        rw [processFiles, hres]
        simp only
        exact ih _ n hmem hfail

/-- Every entry the loop records comes from a successful `perform_ocr` call on
that filename, yielding exactly the recorded text. -/
theorem processFiles_mem_results (envKey : Option String)
    (gen : String → String → Except String String) (fs : String → Option String)
    (api_key : Option String) (l : List String) :
    ∀ st : BatchState, ∀ p ∈ (processFiles envKey gen fs api_key l st).results,
      p ∈ st.results ∨
        (perform_ocr envKey gen (fs p.1) api_key defaultPrompt).result = some p.2 := by
  induction l with
  | nil => intro st p hp; exact Or.inl (by simpa [processFiles] using hp)
  | cons m rest ih =>
    intro st p hp
    cases hres : (perform_ocr envKey gen (fs m) api_key defaultPrompt).result with
    | none =>
      rw [processFiles, hres] at hp
      exact Or.inl hp
    | some tx =>
      rw [processFiles, hres] at hp
      simp only at hp
      rcases ih _ p hp with hin | hok
      · rcases List.mem_append.mp hin with hl | hr
        · exact Or.inl hl
        · right
          rcases List.mem_singleton.mp hr with rfl
          exact hres
      · exact Or.inr hok

/-- If the loop completes without aborting, the recorded keys are precisely
the processed filenames, appended in iteration order. -/
theorem processFiles_ok_keys (envKey : Option String)
    (gen : String → String → Except String String) (fs : String → Option String)
    (api_key : Option String) (l : List String) :
    ∀ st : BatchState, (processFiles envKey gen fs api_key l st).failed = false →
      (processFiles envKey gen fs api_key l st).results.map Prod.fst =
        st.results.map Prod.fst ++ l := by
  induction l with
  | nil => intro st _; simp [processFiles]
  | cons m rest ih =>
    intro st hok
    cases hres : (perform_ocr envKey gen (fs m) api_key defaultPrompt).result with
    | none => rw [processFiles, hres] at hok; simp at hok
    | some tx =>
      rw [processFiles, hres] at hok ⊢
      simp only at hok ⊢
      rw [ih _ hok]
      simp

/-- With no credential available from any source, the remote model is never
called: the loop stops inside its first `perform_ocr`, before
`generate_content`. -/
theorem processFiles_nocred_gen (gen : String → String → Except String String)
    (fs : String → Option String) (l : List String) (st : BatchState) :
    (processFiles none gen fs none l st).genCalls = st.genCalls := by
  cases l with
  | nil => rfl
  | cons n rest =>
    cases hfs : fs n with
    | none => rw [processFiles]; simp [perform_ocr, hfs]
    | some img => rw [processFiles]; simp [perform_ocr, hfs, setup_gemini]

/-- With no credential available and at least one eligible file, the loop
aborts on its first file. -/
theorem processFiles_nocred_failed (gen : String → String → Except String String)
    (fs : String → Option String) (n : String) (rest : List String) (st : BatchState) :
    (processFiles none gen fs none (n :: rest) st).failed = true := by
  cases hfs : fs n with
  | none => rw [processFiles]; simp [perform_ocr, hfs]
  | some img => rw [processFiles]; simp [perform_ocr, hfs, setup_gemini]

/-- An aborted run reports exit code 1 and writes nothing. -/
theorem main_of_failed {envKey gen fs api_key listing}
    (h : (runState envKey gen fs api_key listing).failed = true) :
    main envKey gen fs api_key true listing =
      ⟨1, none, (runState envKey gen fs api_key listing).results,
        (runState envKey gen fs api_key listing).setupCalls,
        (runState envKey gen fs api_key listing).genCalls,
        (runState envKey gen fs api_key listing).opened⟩ := by
  simp [main, h]

/-- A run whose loop survives reports exit code 0 and writes the JSON dump. -/
theorem main_of_ok {envKey gen fs api_key listing}
    (h : (runState envKey gen fs api_key listing).failed = false) :
    main envKey gen fs api_key true listing =
      ⟨0, some (jsonDump (runState envKey gen fs api_key listing).results),
        (runState envKey gen fs api_key listing).results,
        (runState envKey gen fs api_key listing).setupCalls,
        (runState envKey gen fs api_key listing).genCalls,
        (runState envKey gen fs api_key listing).opened⟩ := by
  simp [main, h]

/-- Fully successful run, all fields: the results are the eligible files in
order, paired with their extracted text. -/
theorem main_all_ok {envKey gen fs api_key listing} (t : String → String)
    (h : ∀ n ∈ eligibleFiles listing,
      (perform_ocr envKey gen (fs n) api_key defaultPrompt).result = some (t n)) :
    main envKey gen fs api_key true listing =
      ⟨0, some (jsonDump ((eligibleFiles listing).map (fun n => (n, t n)))),
        (eligibleFiles listing).map (fun n => (n, t n)),
        (eligibleFiles listing).length, (eligibleFiles listing).length,
        eligibleFiles listing⟩ := by
  have hrun : runState envKey gen fs api_key listing =
      ⟨(eligibleFiles listing).map (fun n => (n, t n)), (eligibleFiles listing).length,
        (eligibleFiles listing).length, eligibleFiles listing, false⟩ := by
    unfold runState
    rw [processFiles_all_ok envKey gen fs api_key t _ _ h]
    simp
  have hok : (runState envKey gen fs api_key listing).failed = false := by rw [hrun]
  rw [main_of_ok hok, hrun]

/-! ### The sort order on filenames -/

theorem lexLe_total : ∀ as bs : List Char, lexLe as bs = true ∨ lexLe bs as = true := by
  intro as
  induction as with
  | nil => intro bs; left; rfl
  | cons a as ih =>
    intro bs
    cases bs with
    | nil => right; rfl
    | cons b bs =>
      by_cases h1 : a.toNat < b.toNat
      · left; simp [lexLe, h1]
      · by_cases h2 : b.toNat < a.toNat
        · right; simp [lexLe, h2]
        · rcases ih bs with h | h
          · left; simp [lexLe, h1, h2, h]
          · right; simp [lexLe, h1, h2, h]

theorem lexLe_trans : ∀ as bs cs : List Char,
    lexLe as bs = true → lexLe bs cs = true → lexLe as cs = true := by
  intro as
  induction as with
  | nil => intro bs cs _ _; rfl
  | cons a as ih =>
    intro bs cs h1 h2
    cases bs with
    | nil => simp [lexLe] at h1
    | cons b bs =>
      cases cs with
      | nil => simp [lexLe] at h2
      | cons c cs =>
        by_cases hab : a.toNat < b.toNat
        · by_cases hbc : b.toNat < c.toNat
          · simp [lexLe, show a.toNat < c.toNat by omega]
          · by_cases hcb : c.toNat < b.toNat
            · simp [lexLe, hbc, hcb] at h2
            · simp [lexLe, show a.toNat < c.toNat by omega]
        · by_cases hba : b.toNat < a.toNat
          · simp [lexLe, hab, hba] at h1
          · by_cases hbc : b.toNat < c.toNat
            · simp [lexLe, show a.toNat < c.toNat by omega]
            · by_cases hcb : c.toNat < b.toNat
              · simp [lexLe, hbc, hcb] at h2
              · have h1' : lexLe as bs = true := by simpa [lexLe, hab, hba] using h1
                have h2' : lexLe bs cs = true := by simpa [lexLe, hbc, hcb] using h2
                simp [lexLe, show ¬ a.toNat < c.toNat by omega,
                  show ¬ c.toNat < a.toNat by omega]
                exact ih bs cs h1' h2'

instance : IsTotal String pyLe := ⟨fun a b => lexLe_total a.data b.data⟩

instance : IsTrans String pyLe := ⟨fun a b c h1 h2 => lexLe_trans a.data b.data c.data h1 h2⟩

/-- The processed filenames come out in ascending code-point order. -/
theorem eligibleFiles_sorted (listing : List String) :
    List.Pairwise pyLe (eligibleFiles listing) :=
  (List.sorted_insertionSort pyLe listing).filter isEligible

/-- A filename is processed exactly when it is a directory entry passing the
(case-insensitive) extension filter. -/
theorem eligibleFiles_mem (listing : List String) (n : String) :
    n ∈ eligibleFiles listing ↔ n ∈ listing ∧ isEligible n = true := by
  unfold eligibleFiles sortedListing
  rw [List.mem_filter, (List.perm_insertionSort pyLe listing).mem_iff]

/-! ### The claims -/

/-- Claim C1: in every batch run in which the inference call for some image
fails (the image opens and credentials resolve, but `generate_content`
raises), the process terminates with exit code 1 and no output file is
written: results already obtained for earlier images are discarded, never
partially flushed to disk. -/
theorem claim_C1 (envKey : Option String) (gen : String → String → Except String String)
    (fs : String → Option String) (api_key : Option String) (listing : List String)
    (n c msg k : String)
    (hn : n ∈ eligibleFiles listing) (hopen : fs n = some c)
    (hsetup : setup_gemini envKey api_key = Except.ok k)
    (hgen : gen defaultPrompt c = Except.error msg) :
    (main envKey gen fs api_key true listing).exitCode = 1 ∧
    (main envKey gen fs api_key true listing).written = none := by
  have hfail : (perform_ocr envKey gen (fs n) api_key defaultPrompt).result = none := by
    rw [hopen]; simp [perform_ocr, hsetup, hgen]
  have h : (runState envKey gen fs api_key listing).failed = true :=
    processFiles_failed envKey gen fs api_key (eligibleFiles listing) ⟨[], 0, 0, [], false⟩
      n hn hfail
  rw [main_of_failed h]
  exact ⟨rfl, rfl⟩

theorem claim_C1_witness :
    "b.jpg" ∈ eligibleFiles ["a.jpg", "b.jpg", "c.jpg"] ∧
    (main (some "key")
        (fun _ c => if c = "b.jpg" then Except.error "quota exceeded" else Except.ok ("text of " ++ c))
        (fun n => some n) none true ["a.jpg", "b.jpg", "c.jpg"]).exitCode = 1 ∧
    (main (some "key")
        (fun _ c => if c = "b.jpg" then Except.error "quota exceeded" else Except.ok ("text of " ++ c))
        (fun n => some n) none true ["a.jpg", "b.jpg", "c.jpg"]).written = none := by
  refine ⟨by decide, ?_⟩
  exact claim_C1 (some "key")
    (fun _ c => if c = "b.jpg" then Except.error "quota exceeded" else Except.ok ("text of " ++ c))
    (fun n => some n) none ["a.jpg", "b.jpg", "c.jpg"] "b.jpg" "b.jpg" "quota exceeded" "key"
    (by decide) rfl rfl rfl

/-- Claim C3 counterexample: a successful two-image run resolves credentials
twice (`setup_gemini` runs inside `perform_ocr`, once per image), refuting
"exactly once per run". -/
theorem claim_C3_counterexample :
    (main (some "key") (fun _ c => Except.ok c) (fun n => some n) none true
      ["a.jpg", "b.jpg"]).setupCalls = 2 ∧
    ¬ (main (some "key") (fun _ c => Except.ok c) (fun n => some n) none true
      ["a.jpg", "b.jpg"]).setupCalls = 1 := by
  decide

/-- Claim C3 (amended): credentials are resolved once per image, not once per
run: in a fully successful batch the resolver and the remote call each run
exactly as many times as there are eligible images. -/
theorem claim_C3 (envKey : Option String) (gen : String → String → Except String String)
    (fs : String → Option String) (api_key : Option String) (listing : List String)
    (t : String → String)
    (h : ∀ n ∈ eligibleFiles listing,
      (perform_ocr envKey gen (fs n) api_key defaultPrompt).result = some (t n)) :
    (main envKey gen fs api_key true listing).setupCalls = (eligibleFiles listing).length ∧
    (main envKey gen fs api_key true listing).genCalls = (eligibleFiles listing).length := by
  rw [main_all_ok t h]
  exact ⟨rfl, rfl⟩

theorem claim_C3_witness :
    (main (some "key") (fun _ c => Except.ok c) (fun n => some n) none true
      ["a.jpg", "b.jpg"]).setupCalls = 2 := by
  have h := (claim_C3 (some "key") (fun _ c => Except.ok c) (fun n => some n) none
    ["a.jpg", "b.jpg"] (fun n => n) (by decide)).1
  exact h.trans (by decide)

/-- Claim C4 counterexample: with no credential available anywhere but an
existing directory containing no eligible image, the program exits 0 (and
writes the empty object), not 1. -/
theorem claim_C4_counterexample :
    (main none (fun _ c => Except.ok c) (fun _ => none) none true ["c.png"]).exitCode = 0 ∧
    ¬ (main none (fun _ c => Except.ok c) (fun _ => none) none true ["c.png"]).exitCode = 1 := by
  decide

/-- Claim C4 (amended): with no credential available anywhere, the program
performs zero remote inference calls, always; and it terminates with exit
code 1 provided the directory is missing or contains at least one eligible
image entry (with an existing directory and no eligible entries it exits 0). -/
theorem claim_C4 (gen : String → String → Except String String)
    (fs : String → Option String) (listing : List String) (dirExists : Bool) :
    (main none gen fs none dirExists listing).genCalls = 0 ∧
    (dirExists = false → (main none gen fs none dirExists listing).exitCode = 1) ∧
    (dirExists = true → eligibleFiles listing ≠ [] →
      (main none gen fs none dirExists listing).exitCode = 1) := by
  refine ⟨?_, ?_, ?_⟩
  · cases dirExists with
    | false => simp [main]
    | true =>
      have hgen : (runState none gen fs none listing).genCalls = 0 :=
        processFiles_nocred_gen gen fs (eligibleFiles listing) ⟨[], 0, 0, [], false⟩
      cases hf : (runState none gen fs none listing).failed with
      | false => rw [main_of_ok hf]; exact hgen
      | true => rw [main_of_failed hf]; exact hgen
  · intro h; subst h; simp [main]
  · intro h hne; subst h
    cases hel : eligibleFiles listing with
    | nil => exact absurd hel hne
    | cons n rest =>
      have hf : (runState none gen fs none listing).failed = true := by
        unfold runState
        rw [hel]
        exact processFiles_nocred_failed gen fs n rest ⟨[], 0, 0, [], false⟩
      rw [main_of_failed hf]

theorem claim_C4_witness :
    (main none (fun _ c => Except.ok c) (fun n => some n) none true ["a.jpg"]).genCalls = 0 ∧
    (main none (fun _ c => Except.ok c) (fun n => some n) none true ["a.jpg"]).exitCode = 1 :=
  ⟨(claim_C4 (fun _ c => Except.ok c) (fun n => some n) ["a.jpg"] true).1,
    (claim_C4 (fun _ c => Except.ok c) (fun n => some n) ["a.jpg"] true).2.2 rfl (by decide)⟩

/-- Claim C5 counterexample: in a run with no credential anywhere and one
eligible readable image, the image is opened (it appears in the opened list)
even though the credential check never succeeds: the credential error is
detected only inside the first per-image task, after `Image.open`. -/
theorem claim_C5_counterexample :
    setup_gemini none none = Except.error configErrorMsg ∧
    (main none (fun _ c => Except.ok c) (fun _ => some "img") none true ["a.jpg"]).opened
      = ["a.jpg"] ∧
    (main none (fun _ c => Except.ok c) (fun _ => some "img") none true ["a.jpg"]).exitCode
      = 1 :=
  ⟨rfl, by decide, by decide⟩

/-- Claim C5 (amended): the directory-existence check does precede all
processing (a missing directory aborts before anything is opened or called),
but the credential check runs per image inside `perform_ocr`, only after that
image has been opened: whenever `setup_gemini` was invoked, the image had
already been opened. -/
theorem claim_C5 :
    (∀ (envKey : Option String) (gen : String → String → Except String String)
        (fs : String → Option String) (api_key : Option String) (listing : List String),
      main envKey gen fs api_key false listing = ⟨1, none, [], 0, 0, []⟩) ∧
    (∀ (envKey : Option String) (gen : String → String → Except String String)
        (image : Option String) (api_key : Option String) (prompt : String),
      (perform_ocr envKey gen image api_key prompt).calledSetup = true →
      (perform_ocr envKey gen image api_key prompt).openedImage = true) := by
  constructor
  · intro envKey gen fs api_key listing
    simp [main]
  · intro envKey gen image api_key prompt h
    cases image with
    | none => simp [perform_ocr] at h
    | some img =>
      cases hs : setup_gemini envKey api_key with
      | error e => simp [perform_ocr, hs]
      | ok k =>
        cases hg : gen prompt img with
        | error e => simp [perform_ocr, hs, hg]
        | ok t => simp [perform_ocr, hs, hg]

theorem claim_C5_witness :
    main none (fun _ c => Except.ok c) (fun n => some n) none false ["a.jpg"]
      = ⟨1, none, [], 0, 0, []⟩ ∧
    (perform_ocr none (fun _ c => Except.ok c) (some "img") (some "key")
      defaultPrompt).openedImage = true :=
  ⟨claim_C5.1 none (fun _ c => Except.ok c) (fun n => some n) none ["a.jpg"],
    claim_C5.2 none (fun _ c => Except.ok c) (some "img") (some "key") defaultPrompt
      (by decide)⟩

/-- Claim C6: in a fully successful run the batch processes exactly the
entries whose name case-insensitively ends in `.jpg` or `.jpeg`, in
lexicographically ascending (code-point) filename order, recording
filename-to-result pairs in that order; in particular for a listing
`a.jpg`, `b.jpeg`, `c.png`, `d.JPG` it processes exactly `a.jpg`, `b.jpeg`,
`d.JPG` in that order and skips `c.png`. -/
theorem claim_C6 (envKey : Option String) (gen : String → String → Except String String)
    (fs : String → Option String) (api_key : Option String) (listing : List String)
    (t : String → String)
    (h : ∀ n ∈ eligibleFiles listing,
      (perform_ocr envKey gen (fs n) api_key defaultPrompt).result = some (t n)) :
    (main envKey gen fs api_key true listing).results
      = (eligibleFiles listing).map (fun n => (n, t n)) ∧
    (main envKey gen fs api_key true listing).results.map Prod.fst = eligibleFiles listing ∧
    List.Pairwise pyLe ((main envKey gen fs api_key true listing).results.map Prod.fst) ∧
    (∀ n, n ∈ (main envKey gen fs api_key true listing).results.map Prod.fst ↔
      n ∈ listing ∧ isEligible n = true) ∧
    eligibleFiles ["a.jpg", "b.jpeg", "c.png", "d.JPG"] = ["a.jpg", "b.jpeg", "d.JPG"] := by
  rw [main_all_ok t h]
  dsimp only
  have hkeys : (((eligibleFiles listing).map (fun n => (n, t n))).map Prod.fst)
      = eligibleFiles listing := by
    rw [List.map_map]
    simp [Function.comp_def]
  refine ⟨rfl, hkeys, ?_, ?_, by decide⟩
  · rw [hkeys]
    exact eligibleFiles_sorted listing
  · intro n
    rw [hkeys]
    exact eligibleFiles_mem listing n

theorem claim_C6_witness :
    (main (some "key") (fun _ c => Except.ok c) (fun n => some n) none true
      ["a.jpg", "b.jpeg", "c.png", "d.JPG"]).results
      = [("a.jpg", "a.jpg"), ("b.jpeg", "b.jpeg"), ("d.JPG", "d.JPG")] := by
  have h := (claim_C6 (some "key") (fun _ c => Except.ok c) (fun n => some n) none
    ["a.jpg", "b.jpeg", "c.png", "d.JPG"] (fun n => n) (by decide)).1
  exact h.trans (by decide)

/-- Claim C7: a run on an existing directory with no eligible image files
completes with exit code 0 and writes the empty JSON object to the output
file. -/
theorem claim_C7 (envKey : Option String) (gen : String → String → Except String String)
    (fs : String → Option String) (api_key : Option String) (listing : List String)
    (h : eligibleFiles listing = []) :
    main envKey gen fs api_key true listing = ⟨0, some "\x7b\x7d", [], 0, 0, []⟩ := by
  have hrun : runState envKey gen fs api_key listing = ⟨[], 0, 0, [], false⟩ := by
    unfold runState
    rw [h]
    rfl
  have hok : (runState envKey gen fs api_key listing).failed = false := by rw [hrun]
  rw [main_of_ok hok, hrun]
  rfl

theorem claim_C7_witness :
    eligibleFiles ["c.png", "notes.txt"] = [] ∧
    main (some "key") (fun _ c => Except.ok c) (fun n => some n) none true
      ["c.png", "notes.txt"] = ⟨0, some "\x7b\x7d", [], 0, 0, []⟩ :=
  ⟨by decide,
    claim_C7 (some "key") (fun _ c => Except.ok c) (fun n => some n) none
      ["c.png", "notes.txt"] (by decide)⟩

/-- Claim C9: run invariant: every entry recorded in the ResultSet comes from
a successful processing of that file in this run (so a failing file is never
recorded); an aborted run writes nothing, and a successful run's keys are
exactly the eligible files. -/
theorem claim_C9 (envKey : Option String) (gen : String → String → Except String String)
    (fs : String → Option String) (api_key : Option String) (listing : List String) :
    (∀ p ∈ (main envKey gen fs api_key true listing).results,
      (perform_ocr envKey gen (fs p.1) api_key defaultPrompt).result = some p.2) ∧
    ((main envKey gen fs api_key true listing).exitCode = 1 →
      (main envKey gen fs api_key true listing).written = none) ∧
    ((main envKey gen fs api_key true listing).exitCode = 0 →
      (main envKey gen fs api_key true listing).results.map Prod.fst
        = eligibleFiles listing) := by
  have hmem : ∀ p ∈ (runState envKey gen fs api_key listing).results,
      (perform_ocr envKey gen (fs p.1) api_key defaultPrompt).result = some p.2 := by
    intro p hp
    rcases processFiles_mem_results envKey gen fs api_key (eligibleFiles listing)
        ⟨[], 0, 0, [], false⟩ p hp with h0 | hok
    · simp at h0
    · exact hok
  cases hf : (runState envKey gen fs api_key listing).failed with
  | false =>
    rw [main_of_ok hf]
    refine ⟨hmem, ?_, ?_⟩
    · intro h; simp at h
    · intro _
      have hkeys := processFiles_ok_keys envKey gen fs api_key (eligibleFiles listing)
        ⟨[], 0, 0, [], false⟩ hf
      simpa using hkeys
  | true =>
    rw [main_of_failed hf]
    refine ⟨hmem, fun _ => rfl, ?_⟩
    intro h; simp at h

theorem claim_C9_witness :
    (main (some "key") (fun _ c => Except.ok c) (fun n => some n) none true
      ["a.jpg", "c.png"]).results.map Prod.fst = eligibleFiles ["a.jpg", "c.png"] :=
  (claim_C9 (some "key") (fun _ c => Except.ok c) (fun n => some n) none
    ["a.jpg", "c.png"]).2.2 (by decide)

/-- Claim C10: the eligibility filter inspects only the entry's name: a
directory entry whose name passes the extension filter but cannot be opened
as an image (for example a subdirectory so named) is selected for processing,
its open fails, and the whole run exits with code 1, writing nothing. -/
theorem claim_C10 (envKey : Option String) (gen : String → String → Except String String)
    (fs : String → Option String) (api_key : Option String) (listing : List String)
    (n : String) (hmem : n ∈ listing) (helig : isEligible n = true) (hopen : fs n = none) :
    n ∈ eligibleFiles listing ∧
    (main envKey gen fs api_key true listing).exitCode = 1 ∧
    (main envKey gen fs api_key true listing).written = none := by
  have hn : n ∈ eligibleFiles listing := (eligibleFiles_mem listing n).mpr ⟨hmem, helig⟩
  have hfail : (perform_ocr envKey gen (fs n) api_key defaultPrompt).result = none := by
    rw [hopen]
    rfl
  have hf : (runState envKey gen fs api_key listing).failed = true :=
    processFiles_failed envKey gen fs api_key (eligibleFiles listing) ⟨[], 0, 0, [], false⟩
      n hn hfail
  rw [main_of_failed hf]
  exact ⟨hn, rfl, rfl⟩

theorem claim_C10_witness :
    "sub.jpg" ∈ eligibleFiles ["sub.jpg"] ∧
    (main (some "key") (fun _ c => Except.ok c) (fun _ => none) none true
      ["sub.jpg"]).exitCode = 1 ∧
    (main (some "key") (fun _ c => Except.ok c) (fun _ => none) none true
      ["sub.jpg"]).written = none :=
  claim_C10 (some "key") (fun _ c => Except.ok c) (fun _ => none) none ["sub.jpg"]
    "sub.jpg" (by decide) (by decide) rfl

/-! ### Reading the written JSON back: auxiliary parsing lemmas -/

theorem skipWs_space (l : List Char) : skipWs (' ' :: l) = skipWs l := by simp [skipWs]

theorem skipWs_nl (l : List Char) : skipWs ('\n' :: l) = skipWs l := by simp [skipWs]

theorem skipWs_quote (l : List Char) : skipWs ('"' :: l) = '"' :: l := by simp [skipWs]

theorem skipWs_comma (l : List Char) : skipWs (',' :: l) = ',' :: l := by simp [skipWs]

theorem skipWs_colon (l : List Char) : skipWs (':' :: l) = ':' :: l := by simp [skipWs]

theorem skipWs_rbrace (l : List Char) : skipWs ('\x7d' :: l) = '\x7d' :: l := by
  simp [skipWs]

theorem skipWs_lbrace (l : List Char) : skipWs ('\x7b' :: l) = '\x7b' :: l := by
  simp [skipWs]

theorem skipWs_idem : ∀ l : List Char, skipWs (skipWs l) = skipWs l := by
  intro l
  induction l with
  | nil => rfl
  | cons c rest ih =>
    by_cases h : c = ' ' ∨ c = '\n' ∨ c = '\t' ∨ c = '\r'
    · rw [show skipWs (c :: rest) = skipWs rest from by simp [skipWs, h]]
      exact ih
    · rw [show skipWs (c :: rest) = c :: rest from by simp [skipWs, h]]
      simp [skipWs, h]

theorem parsePair_skipWs (l : List Char) : parsePair (skipWs l) = parsePair l := by
  unfold parsePair
  rw [skipWs_idem]

theorem parseMembers_skipWs (fuel : Nat) (l : List Char) :
    parseMembers fuel (skipWs l) = parseMembers fuel l := by
  cases fuel with
  | zero => rfl
  | succ f =>
    simp only [parseMembers]
    rw [parsePair_skipWs]

theorem parseMembers_cons_nl (fuel : Nat) (l : List Char) :
    parseMembers fuel ('\n' :: l) = parseMembers fuel l := by
  rw [← parseMembers_skipWs fuel ('\n' :: l), skipWs_nl, parseMembers_skipWs]

theorem hexVal_hexDigitChar (n : Nat) (h : n < 16) : hexVal (hexDigitChar n) = some n := by
  interval_cases n <;> decide

/-- One short escape sequence is decoded back to its character. -/
theorem psb_esc_step (e d : Char) (hu : ¬ e = 'u') (he : unescapeChar e = some d)
    (l acc : List Char) :
    parseStringBody ('\\' :: e :: l) StrMode.normal acc
      = parseStringBody l StrMode.normal (d :: acc) := by
  simp [parseStringBody, hu, he]

/-- A `\u00XX` escape of a control character is decoded back to it. -/
theorem psb_unicode_step (c : Char) (h32 : c.toNat < 32) (l acc : List Char) :
    parseStringBody ('\\' :: 'u' :: '0' :: '0' :: hexDigitChar (c.toNat / 16)
        :: hexDigitChar (c.toNat % 16) :: l) StrMode.normal acc
      = parseStringBody l StrMode.normal (c :: acc) := by
  have h1 : hexVal (hexDigitChar (c.toNat / 16)) = some (c.toNat / 16) :=
    hexVal_hexDigitChar _ (by omega)
  have h2 : hexVal (hexDigitChar (c.toNat % 16)) = some (c.toNat % 16) :=
    hexVal_hexDigitChar _ (by omega)
  have h0 : hexVal '0' = some 0 := by decide
  simp [parseStringBody, h0, h1, h2]
  rw [Nat.div_add_mod, Char.ofNat_toNat]

/-- An unescaped character is consumed as itself. -/
theorem psb_plain_step (c : Char) (h1 : ¬ c = '"') (h2 : ¬ c = '\\') (l acc : List Char) :
    parseStringBody (c :: l) StrMode.normal acc
      = parseStringBody l StrMode.normal (c :: acc) := by
  simp [parseStringBody, h1, h2]

/-- Round trip of a JSON string body: scanning the escaped form of `cs`
followed by the closing quote decodes back to `cs` and leaves the rest. -/
theorem psb_escape : ∀ (cs rest acc : List Char),
    parseStringBody (((cs.map escapeChar).flatten) ++ '"' :: rest) StrMode.normal acc
      = some (acc.reverse ++ cs, rest) := by
  intro cs
  induction cs with
  | nil => intro rest acc; simp [parseStringBody]
  | cons c cs ih =>
    intro rest acc
    rw [List.map_cons, List.flatten_cons, List.append_assoc]
    by_cases h1 : c = '"'
    · subst h1
      rw [show escapeChar '"' = ['\\', '"'] from rfl]
      simp only [List.cons_append, List.nil_append]
      rw [psb_esc_step '"' '"' (by decide) rfl, ih]
      simp
    · by_cases h2 : c = '\\'
      · subst h2
        rw [show escapeChar '\\' = ['\\', '\\'] from rfl]
        simp only [List.cons_append, List.nil_append]
        rw [psb_esc_step '\\' '\\' (by decide) rfl, ih]
        simp
      · by_cases h3 : c = '\x08'
        · subst h3
          rw [show escapeChar '\x08' = ['\\', 'b'] from rfl]
          simp only [List.cons_append, List.nil_append]
          rw [psb_esc_step 'b' '\x08' (by decide) rfl, ih]
          simp
        · by_cases h4 : c = '\x0c'
          · subst h4
            rw [show escapeChar '\x0c' = ['\\', 'f'] from rfl]
            simp only [List.cons_append, List.nil_append]
            rw [psb_esc_step 'f' '\x0c' (by decide) rfl, ih]
            simp
          · by_cases h5 : c = '\n'
            · subst h5
              rw [show escapeChar '\n' = ['\\', 'n'] from rfl]
              simp only [List.cons_append, List.nil_append]
              rw [psb_esc_step 'n' '\n' (by decide) rfl, ih]
              simp
            · by_cases h6 : c = '\r'
              · subst h6
                rw [show escapeChar '\r' = ['\\', 'r'] from rfl]
                simp only [List.cons_append, List.nil_append]
                rw [psb_esc_step 'r' '\r' (by decide) rfl, ih]
                simp
              · by_cases h7 : c = '\t'
                · subst h7
                  rw [show escapeChar '\t' = ['\\', 't'] from rfl]
                  simp only [List.cons_append, List.nil_append]
                  rw [psb_esc_step 't' '\t' (by decide) rfl, ih]
                  simp
                · by_cases h8 : c.toNat < 32
                  · rw [show escapeChar c = ['\\', 'u', '0', '0',
                        hexDigitChar (c.toNat / 16), hexDigitChar (c.toNat % 16)] from by
                      simp [escapeChar, h1, h2, h3, h4, h5, h6, h7, h8]]
                    simp only [List.cons_append, List.nil_append]
                    rw [psb_unicode_step c h8, ih]
                    simp
                  · rw [show escapeChar c = [c] from by
                      simp [escapeChar, h1, h2, h3, h4, h5, h6, h7, h8]]
                    simp only [List.cons_append, List.nil_append]
                    rw [psb_plain_step c h1 h2, ih]
                    simp

/-- The character list of an encoded JSON string literal. -/
theorem encodeString_data (s : String) :
    (encodeString s).data = '"' :: (((s.data.map escapeChar).flatten) ++ ['"']) := by
  simp [encodeString, String.data_append, List.append_assoc]

/-- The character list of one indented member line. -/
theorem entryLine_data (kv : String × String) :
    (entryLine kv).data = ' ' :: ' ' :: '"' ::
      (((kv.1.data.map escapeChar).flatten) ++ '"' :: ':' :: ' ' :: '"' ::
        (((kv.2.data.map escapeChar).flatten) ++ ['"'])) := by
  simp [entryLine, String.data_append, encodeString_data, List.append_assoc,
    show ("  " : String).data = [' ', ' '] from rfl,
    show (": " : String).data = [':', ' '] from rfl]

/-- Parsing one member line back yields the original pair. -/
theorem parsePair_entryLine (kv : String × String) (rest : List Char) :
    parsePair ((entryLine kv).data ++ rest) = some (kv, rest) := by
  rw [entryLine_data]
  simp only [List.cons_append, List.append_assoc, List.singleton_append]
  unfold parsePair
  rw [skipWs_space, skipWs_space, skipWs_quote]
  simp only [psb_escape, List.nil_append]
  simp [skipWs_colon, skipWs_space, skipWs_quote, psb_escape]

/-! ### Round trip of the whole dumped object -/

theorem intercalate_go_append (s : String) :
    ∀ (l : List String) (a b : String),
      String.intercalate.go (a ++ b) s l = a ++ String.intercalate.go b s l := by
  intro l
  induction l with
  | nil => intro a b; simp [String.intercalate.go]
  | cons c cs ih =>
    intro a b
    rw [show String.intercalate.go (a ++ b) s (c :: cs)
        = String.intercalate.go (a ++ b ++ s ++ c) s cs from rfl]
    rw [show a ++ b ++ s ++ c = a ++ (b ++ s ++ c) from by
      simp [String.append_assoc]]
    rw [ih a (b ++ s ++ c)]
    rfl

theorem intercalate_cons_cons (s a b : String) (l : List String) :
    String.intercalate s (a :: b :: l) = a ++ s ++ String.intercalate s (b :: l) := by
  show String.intercalate.go a s (b :: l) = a ++ s ++ String.intercalate.go b s l
  rw [show String.intercalate.go a s (b :: l)
      = String.intercalate.go (a ++ s ++ b) s l from rfl]
  exact intercalate_go_append s l (a ++ s) b

/-- Each member contributes at least one character to the joined member text,
so the member count is bounded by the text length. -/
theorem members_length_le : ∀ (m : List (String × String)) (kv : String × String),
    m.length ≤ (String.intercalate ",\n" ((kv :: m).map entryLine)).data.length := by
  intro m
  induction m with
  | nil => intro kv; simp
  | cons kv2 m ih =>
    intro kv
    rw [List.map_cons, List.map_cons, intercalate_cons_cons]
    have h := ih kv2
    rw [List.map_cons] at h
    have h2 : (",\n" : String).data.length = 2 := rfl
    simp only [String.data_append, List.length_append, List.length_cons]
    omega

/-- The joined member text always starts with the two-space indent and the
opening quote of the first key. -/
theorem members_data_shape (kv : String × String) (ms : List (String × String)) :
    ∃ B, (String.intercalate ",\n" ((kv :: ms).map entryLine)).data
      = ' ' :: ' ' :: '"' :: B := by
  have hsplit : ∃ Z, (String.intercalate ",\n" ((kv :: ms).map entryLine)).data
      = (entryLine kv).data ++ Z := by
    cases ms with
    | nil =>
      refine ⟨[], ?_⟩
      rw [List.map_cons, List.map_nil,
        show String.intercalate ",\n" [entryLine kv] = entryLine kv from rfl]
      simp
    | cons kv2 ms =>
      refine ⟨(",\n" ++ String.intercalate ",\n" (entryLine kv2 :: List.map entryLine ms)).data, ?_⟩
      rw [List.map_cons, List.map_cons, intercalate_cons_cons,
        show entryLine kv ++ ",\n"
            ++ String.intercalate ",\n" (entryLine kv2 :: List.map entryLine ms)
          = entryLine kv ++ (",\n"
            ++ String.intercalate ",\n" (entryLine kv2 :: List.map entryLine ms)) from by
          rw [String.append_assoc],
        String.data_append]
  obtain ⟨Z, hZ⟩ := hsplit
  refine ⟨(((kv.1.data.map escapeChar).flatten) ++ '"' :: ':' :: ' ' :: '"' ::
    (((kv.2.data.map escapeChar).flatten) ++ ['"'])) ++ Z, ?_⟩
  rw [hZ, entryLine_data]
  simp only [List.cons_append]

/-- Parsing the joined member text followed by the closing brace recovers the
member list. -/
theorem parseMembers_dump :
    ∀ (m : List (String × String)) (kv : String × String) (fuel : Nat) (rest : List Char),
      m.length < fuel →
      parseMembers fuel
          ((String.intercalate ",\n" ((kv :: m).map entryLine)).data ++ '\n' :: '\x7d' :: rest)
        = some (kv :: m, rest) := by
  intro m
  induction m with
  | nil =>
    intro kv fuel rest hf
    cases fuel with
    | zero => exact absurd hf (by omega)
    | succ f =>
      rw [List.map_cons, List.map_nil,
        show String.intercalate ",\n" [entryLine kv] = entryLine kv from rfl]
      simp only [parseMembers]
      rw [parsePair_entryLine]
      simp only [skipWs_nl, skipWs_rbrace]
  | cons kv2 m ih =>
    intro kv fuel rest hf
    cases fuel with
    | zero => exact absurd hf (by omega)
    | succ f =>
      rw [List.map_cons, List.map_cons, intercalate_cons_cons]
      have IH := ih kv2 f rest (by simp at hf; omega)
      rw [List.map_cons] at IH
      rw [String.data_append, String.data_append,
        show (",\n" : String).data = [',', '\n'] from rfl]
      simp only [List.cons_append, List.append_assoc, List.nil_append]
      simp only [parseMembers]
      rw [parsePair_entryLine]
      simp only [skipWs_comma, parseMembers_cons_nl]
      rw [IH]

/-- Round trip: reading back the exact text `json.dump(..., ensure_ascii=False,
indent=2)` writes for a ResultSet yields that ResultSet. -/
theorem jsonLoad_jsonDump (m : List (String × String)) : jsonLoad (jsonDump m) = some m := by
  cases m with
  | nil => decide
  | cons kv m =>
    obtain ⟨B, hB⟩ := members_data_shape kv m
    rw [show jsonDump (kv :: m)
        = "\x7b\n" ++ String.intercalate ",\n" ((kv :: m).map entryLine) ++ "\n\x7d" from rfl]
    unfold jsonLoad
    rw [String.data_append, String.data_append,
      show ("\x7b\n" : String).data = ['\x7b', '\n'] from rfl,
      show ("\n\x7d" : String).data = ['\n', '\x7d'] from rfl]
    simp only [List.cons_append, List.append_assoc, List.nil_append]
    rw [show skipWs ('\x7b' :: '\n'
        :: ((String.intercalate ",\n" ((kv :: m).map entryLine)).data ++ ['\n', '\x7d']))
      = '\x7b' :: '\n'
        :: ((String.intercalate ",\n" ((kv :: m).map entryLine)).data ++ ['\n', '\x7d'])
      from skipWs_lbrace _]
    have hsw : skipWs ('\n'
        :: ((String.intercalate ",\n" ((kv :: m).map entryLine)).data ++ ['\n', '\x7d']))
        = '"' :: (B ++ ['\n', '\x7d']) := by
      rw [skipWs_nl, hB]
      simp only [List.cons_append]
      rw [skipWs_space, skipWs_space, skipWs_quote]
    simp only [hsw]
    have hpm : parseMembers
        (('\x7b' :: '\n'
          :: ((String.intercalate ",\n" ((kv :: m).map entryLine)).data
            ++ ['\n', '\x7d'])).length + 1)
        ('"' :: (B ++ ['\n', '\x7d'])) = some (kv :: m, []) := by
      rw [← hsw, skipWs_nl, parseMembers_skipWs]
      have hlen := members_length_le m kv
      exact parseMembers_dump m kv _ [] (by
        simp only [List.length_cons, List.length_append]
        omega)
    split
    · rename_i r2 heq
      simp at heq
    · rw [hpm]
      rfl

/-! ### Remaining claims -/

/-- Claim C2 counterexample: with the environment variable set to `secret` and
an explicit empty-string key supplied, the resolver raises the configuration
error instead of falling back to the environment variable: the fallback
happens only when the explicit key is `None`, not when it is empty. -/
theorem claim_C2_counterexample :
    setup_gemini (some "secret") (some "") = Except.error configErrorMsg ∧
    ¬ setup_gemini (some "secret") (some "") = Except.ok "secret" := by
  constructor
  · rfl
  · intro h
    rw [show setup_gemini (some "secret") (some "")
        = Except.error configErrorMsg from rfl] at h
    exact Except.noConfusion h

/-- Claim C2 (amended): an explicit key, when supplied, always takes
precedence: a non-empty explicit key is used as is, while an explicit empty
string is a configuration error even if the environment variable is set. Only
when no explicit key is supplied is the environment variable consulted: a
non-empty value is used, and otherwise (unset or empty) the resolver fails
with the configuration error. -/
theorem claim_C2 (envKey : Option String) (k : String) :
    (setup_gemini envKey (some k)
      = if k = "" then Except.error configErrorMsg else Except.ok k) ∧
    (setup_gemini envKey none
      = match envKey with
        | some e => if e = "" then Except.error configErrorMsg else Except.ok e
        | none => Except.error configErrorMsg) := by
  constructor
  · rfl
  · cases envKey <;> rfl

/-- Claim C8: the result writer round-trips: for every ResultSet, writing it
with `json.dump(..., ensure_ascii=False, indent=2)` and reading the file back
as JSON yields the original mapping; and non-ASCII characters are preserved
literally in the written text rather than escaped (the written text for
`{"x.jpg": "héllo"}` contains the accented character itself). -/
theorem claim_C8 :
    (∀ m : List (String × String), jsonLoad (jsonDump m) = some m) ∧
    jsonDump [("x.jpg", "héllo")] = "\x7b\n  \"x.jpg\": \"héllo\"\n\x7d" :=
  ⟨jsonLoad_jsonDump, by decide⟩

end OcrGemini
